import Mathlib

/- Verification of the PageRank core in pagerank.py: the shared transition
model (transition_model), the sampling engine (sample_pagerank) and the
iterative engine (iterate_pagerank). Python dicts are embedded as
insertion-ordered association lists, Python floats as exact rationals, and
the two random draws of the sampling engine as an injected stream of
indices, so that every statement is about the concrete algorithm of the
source file. -/

/-- Nodes are page names; the source uses strings (file names). -/
abbrev Node := String

/-- A corpus is a Python dict mapping each page to the list of pages it
links to, embedded as an insertion-ordered association list. A set of
links is embedded as a duplicate-free list. -/
abbrev Corpus := List (Node × List Node)

/-- First-match lookup in an association list, mirroring Python dict
access `d[k]` (which succeeds exactly when the key is present). -/
def dictFind {β : Type} : List (Node × β) → Node → Option β
  | [], _ => none
  | (k', v) :: t, k => if k = k' then some v else dictFind t k

/-- Value of a key in a rational-valued dict, defaulting to 0 for a
missing key. -/
def dictGet (d : List (Node × ℚ)) (k : Node) : ℚ :=
  (dictFind d k).getD 0

/-- Python dict assignment `d[k] = v`: overwrite the entry with that key
in place, or append a new entry at the end, preserving insertion order. -/
def dictSet : List (Node × ℚ) → Node → ℚ → List (Node × ℚ)
  | [], k, v => [(k, v)]
  | (k', v') :: t, k, v => if k = k' then (k, v) :: t else (k', v') :: dictSet t k v

/-- The transition model of pagerank.py (lines 51 to 79), over exact
rationals. The source guards its dangling-page branch with the test
`links == {}`, which compares a set with an empty dict; in Python this
comparison is False for every set, including the empty one, so the branch
is dead code and execution always reaches the two loops below (and even
if it were taken, the source would return the corpus object itself rather
than the computed distribution). For a dangling page the first loop is
vacuous and every page ends up with probability (1 - df) / number of
pages. -/
def transition_model (corpus : Corpus) (page : Node) (df : ℚ) : List (Node × ℚ) :=
  let links := (dictFind corpus page).getD []
  let dist := links.foldl (fun dist p => dictSet dist p (df / (links.length : ℚ))) []
  corpus.foldl (fun dist pr =>
    if pr.1 ∈ links then
      dictSet dist pr.1 (dictGet dist pr.1 + (1 - df) / (corpus.length : ℚ))
    else
      dictSet dist pr.1 ((1 - df) / (corpus.length : ℚ))) dist

/-- The exceptions Python could raise inside the engines: KeyError and
ZeroDivisionError inside transition_model, and IndexError from
random.choice on an empty sequence at the start of sample_pagerank. -/
inductive PyErr : Type
  | keyError : PyErr
  | zeroDivisionError : PyErr
  | indexError : PyErr
deriving DecidableEq

/-- transition_model with every Python fault site made explicit: the
dict access corpus[page], the division by len(links) inside the first
loop, the division by len(corpus) inside the second loop, and the
augmented assignment distribution[page] += which requires the key to be
present. -/
def transitionModelE (corpus : Corpus) (page : Node) (df : ℚ) :
    Except PyErr (List (Node × ℚ)) :=
  match dictFind corpus page with
  | none => Except.error PyErr.keyError
  | some links =>
    match links.foldlM (fun dist p =>
        if links.length = 0 then Except.error PyErr.zeroDivisionError
        else Except.ok (dictSet dist p (df / (links.length : ℚ))))
        ([] : List (Node × ℚ)) with
    | Except.error e => Except.error e
    | Except.ok dist0 =>
      corpus.foldlM (fun dist pr =>
        if corpus.length = 0 then Except.error PyErr.zeroDivisionError
        else if pr.1 ∈ links then
          match dictFind dist pr.1 with
          | some v => Except.ok (dictSet dist pr.1 (v + (1 - df) / (corpus.length : ℚ)))
          | none => Except.error PyErr.keyError
        else Except.ok (dictSet dist pr.1 ((1 - df) / (corpus.length : ℚ)))) dist0

/-- A two-node corpus with a link A to B and a dangling node B. -/
def corpus0 : Corpus := [("A", ["B"]), ("B", [])]

/-- A two-node corpus with mutual links A to B and B to A. -/
def corpus2 : Corpus := [("A", ["B"]), ("B", ["A"])]

/-- A deterministic index stream for the sampling engine. -/
def zeroStream : ℕ → ℕ := fun _ => 0

/-- The start of the walk: random.choice over the list of pages, embedded
as picking the index given by the stream, reduced modulo the number of
pages. Meaningful only for a non-empty corpus: on a zero-node corpus the
source raises IndexError inside random.choice, an error path modelled by
sampleStartE below, while this total function falls back to the default
node. -/
def sampleStart (corpus : Corpus) (stream : ℕ → ℕ) : Node :=
  (corpus.map Prod.fst).getD (stream 0 % corpus.length) ""

/-- The start of the walk with the Python fault site made explicit:
random.choice(list(corpus)) raises IndexError when the corpus has no
pages, and otherwise returns the drawn page. -/
def sampleStartE (corpus : Corpus) (stream : ℕ → ℕ) : Except PyErr Node :=
  if corpus.length = 0 then Except.error PyErr.indexError
  else Except.ok ((corpus.map Prod.fst).getD (stream 0 % corpus.length) "")

/-- One weighted draw of the walk: random.choices over the keys of the
transition distribution with its values as weights, embedded as picking
the stream index modulo the number of keys. Every key of the returned
distribution has positive weight for a damping factor in (0,1), so any
index is a possible draw. -/
def nextPage (corpus : Corpus) (df : ℚ) (stream : ℕ → ℕ) (page : Node) (i : ℕ) : Node :=
  let ks := (transition_model corpus page df).map Prod.fst
  ks.getD (stream (i + 1) % ks.length) ""

/-- One iteration of the sampling loop: draw the next page and record the
visit in the tally dict, exactly as lines 97 to 105 of the source: the
tally is incremented only for the drawn page, never for the start page. -/
def sampleStep (corpus : Corpus) (df : ℚ) (stream : ℕ → ℕ)
    (st : Node × List (Node × ℚ)) (i : ℕ) : Node × List (Node × ℚ) :=
  let page := nextPage corpus df stream st.1 i
  (page, dictSet st.2 page (dictGet st.2 page + 1))

/-- The sampling engine of pagerank.py (lines 82 to 111): choose a start
page, run n - 1 weighted draws recording each drawn page, then divide
every recorded count by n. The start page itself is never recorded, so
the counts total n - 1 and the returned values total (n - 1) / n. -/
def sample_pagerank (corpus : Corpus) (df : ℚ) (n : ℕ) (stream : ℕ → ℕ) :
    List (Node × ℚ) :=
  let tally := ((List.range (n - 1)).foldl (sampleStep corpus df stream)
    (sampleStart corpus stream, ([] : List (Node × ℚ)))).2
  tally.map (fun kv => (kv.1, kv.2 / (n : ℚ)))

/-- sample_pagerank with the start-draw fault site made explicit: the
walk begins with random.choice over the page list, which raises
IndexError on a zero-node corpus before the loop is ever entered; once a
start page exists the corpus is non-empty, every transition distribution
in the loop has the corpus pages among its keys, and the weighted draw
always has candidates, so no further fault site exists on this path. -/
def sample_pagerankE (corpus : Corpus) (df : ℚ) (n : ℕ) (stream : ℕ → ℕ) :
    Except PyErr (List (Node × ℚ)) :=
  match sampleStartE corpus stream with
  | Except.error e => Except.error e
  | Except.ok start =>
      Except.ok ((((List.range (n - 1)).foldl (sampleStep corpus df stream)
        (start, ([] : List (Node × ℚ)))).2).map (fun kv => (kv.1, kv.2 / (n : ℚ))))

/-- The pages recorded as visits by the sampling loop, in order: the page
drawn at each iteration (the start page is not recorded by the source). -/
def sampleVisits (corpus : Corpus) (df : ℚ) (stream : ℕ → ℕ) :
    Node → List ℕ → List Node
  | _, [] => []
  | page, i :: is =>
      nextPage corpus df stream page i
        :: sampleVisits corpus df stream (nextPage corpus df stream page i) is

/-- The per-target accumulation of one sweep of iterate_pagerank (lines
134 to 140 of the source): for a target page, scan every (page_i, pages)
pair of the corpus; a page that links to the target contributes its
snapshot rank divided by its link count, and a dangling page contributes
1 / len(corpus), a constant NOT weighted by that page's snapshot rank. -/
def prob_for (corpus : Corpus) (dcopy : List (Node × ℚ)) (page : Node) : ℚ :=
  corpus.foldl (fun prob pr =>
    if page ∈ pr.2 then prob + dictGet dcopy pr.1 / (pr.2.length : ℚ)
    else if pr.2.length = 0 then prob + 1 / (corpus.length : ℚ)
    else prob) 0

/-- The value written to d[page] in one sweep (line 141 of the source). -/
def sweepVal (corpus : Corpus) (df : ℚ) (dcopy : List (Node × ℚ)) (page : Node) : ℚ :=
  (1 - df) / (corpus.length : ℚ) + df * prob_for corpus dcopy page

/-- One full sweep of the while loop: every page of the corpus is assigned
its new value, each computed only from the snapshot dcopy taken at the top
of the loop (the source reads d_copy, never the partially updated d). -/
def sweep (corpus : Corpus) (df : ℚ) (dcopy : List (Node × ℚ)) : List (Node × ℚ) :=
  corpus.foldl (fun d pr => dictSet d pr.1 (sweepVal corpus df dcopy pr.1)) dcopy

/-- The convergence test of the while loop (lines 142 to 146): the loop
exits when no page moved by more than 0.001 between the snapshot and the
new vector. -/
def converged (corpus : Corpus) (dcopy dnew : List (Node × ℚ)) : Bool :=
  corpus.all (fun pr => decide (|dictGet dcopy pr.1 - dictGet dnew pr.1| ≤ 1/1000))

/-- The initial vector: rank 1/|V| for every page (lines 127 to 128). -/
def initRank (corpus : Corpus) : List (Node × ℚ) :=
  corpus.map (fun pr => (pr.1, 1 / (corpus.length : ℚ)))

/-- The while loop of iterate_pagerank with explicit fuel: one unit of
fuel per iteration of the Python while loop; none models a run still
inside the loop when the fuel runs out (the source has no iteration
cap). -/
def iterLoop (corpus : Corpus) (df : ℚ) : ℕ → List (Node × ℚ) → Option (List (Node × ℚ))
  | 0, _ => none
  | fuel + 1, d =>
      let dnew := sweep corpus df d
      if converged corpus d dnew then some dnew else iterLoop corpus df fuel dnew

/-- The iterative engine of pagerank.py (lines 114 to 155): initialize to
the uniform vector, sweep until no value moves by more than 0.001, then
divide every value by the sum of all values. On a zero-node corpus every
loop is vacuous and the function returns the empty dict with no error. -/
def iterate_pagerank (corpus : Corpus) (df : ℚ) (fuel : ℕ) : Option (List (Node × ℚ)) :=
  (iterLoop corpus df fuel (initRank corpus)).map (fun d =>
    d.map (fun kv => (kv.1, kv.2 / ((d.map Prod.snd).sum))))

/-- The total in-link mass reaching a page in one sweep: the sum over all
nodes that link to the page of snapshot rank over link count. -/
def linkMass (corpus : Corpus) (rank : List (Node × ℚ)) (page : Node) : ℚ :=
  (corpus.map (fun pr =>
    if page ∈ pr.2 then dictGet rank pr.1 / (pr.2.length : ℚ) else 0)).sum

/-- The number of dangling nodes of the corpus. -/
def danglingCount (corpus : Corpus) : ℕ :=
  (corpus.filter (fun pr => decide (pr.2.length = 0))).length

/-- The closed form of the value the source actually writes in one sweep:
teleport term, in-link mass, and one constant 1/|V| per dangling node,
independent of the dangling nodes' ranks. -/
def codeSweepFormula (corpus : Corpus) (df : ℚ) (rank : List (Node × ℚ)) (page : Node) : ℚ :=
  (1 - df) / (corpus.length : ℚ) + df * linkMass corpus rank page
    + df * ((danglingCount corpus : ℚ) / (corpus.length : ℚ))

/-- Modelled from the spec: the sweep update the spec claims, in which
each dangling node contributes its own current rank spread over all
nodes, rank(i)/|V|, rather than a rank-independent constant. -/
def specSweepFormula (corpus : Corpus) (df : ℚ) (rank : List (Node × ℚ)) (page : Node) : ℚ :=
  (1 - df) / (corpus.length : ℚ) + df * linkMass corpus rank page
    + df * ((corpus.map (fun pr =>
        if pr.2.length = 0 then dictGet rank pr.1 / (corpus.length : ℚ) else 0)).sum)

theorem dictFind_nil {β : Type} (k : Node) : dictFind ([] : List (Node × β)) k = none := rfl

theorem dictFind_cons {β : Type} (k' : Node) (v : β) (t : List (Node × β)) (k : Node) :
    dictFind ((k', v) :: t) k = if k = k' then some v else dictFind t k := rfl

theorem dictSet_nil (k : Node) (v : ℚ) : dictSet [] k v = [(k, v)] := rfl

theorem dictSet_cons (k' : Node) (v' : ℚ) (t : List (Node × ℚ)) (k : Node) (v : ℚ) :
    dictSet ((k', v') :: t) k v = if k = k' then (k, v) :: t else (k', v') :: dictSet t k v := rfl

theorem dictGet_dictSet (d : List (Node × ℚ)) (k : Node) (v : ℚ) (p : Node) :
    dictGet (dictSet d k v) p = if p = k then v else dictGet d p := by
  induction d with
  | nil =>
    by_cases h : p = k <;> simp [dictSet_nil, dictGet, dictFind_nil, dictFind_cons, h]
  | cons hd tl ih =>
    obtain ⟨k', v'⟩ := hd
    by_cases hk : k = k'
    · subst hk
      by_cases hp : p = k <;> simp [dictSet_cons, dictGet, dictFind_cons, hp]
    · by_cases hp : p = k'
      · subst hp
        have hpk : ¬ p = k := fun h => hk h.symm
        simp [dictSet_cons, dictGet, dictFind_cons, hk, hpk]
      · simp only [dictSet_cons, if_neg hk]
        simpa [dictGet, dictFind_cons, hp] using ih

theorem mem_keys_dictSet (d : List (Node × ℚ)) (k : Node) (v : ℚ) (p : Node) :
    p ∈ (dictSet d k v).map Prod.fst ↔ p ∈ d.map Prod.fst ∨ p = k := by
  induction d with
  | nil => simp [dictSet_nil]
  | cons hd tl ih =>
    obtain ⟨k', v'⟩ := hd
    by_cases hk : k = k'
    · subst hk
      by_cases hp : p = k <;> simp [dictSet_cons, hp]
    · by_cases hp : p = k'
      · subst hp; simp [dictSet_cons, hk]
      · simp [dictSet_cons, hk, hp, ih]

theorem keys_dictSet_of_mem (d : List (Node × ℚ)) (k : Node) (v : ℚ)
    (h : k ∈ d.map Prod.fst) :
    (dictSet d k v).map Prod.fst = d.map Prod.fst := by
  induction d with
  | nil => simp at h
  | cons hd tl ih =>
    obtain ⟨k', v'⟩ := hd
    by_cases hk : k = k'
    · subst hk; simp [dictSet_cons]
    · simp only [List.map_cons, List.mem_cons] at h
      rcases h with h | h
      · exact absurd h.symm (fun h2 => hk h2.symm)
      · simp [dictSet_cons, hk, ih h]

theorem dictFind_eq_some_of_mem (d : List (Node × ℚ)) (k : Node)
    (h : k ∈ d.map Prod.fst) :
    dictFind d k = some (dictGet d k) := by
  induction d with
  | nil => simp at h
  | cons hd tl ih =>
    obtain ⟨k', v'⟩ := hd
    by_cases hk : k = k'
    · subst hk
      simp [dictFind_cons, dictGet]
    · simp only [List.map_cons, List.mem_cons] at h
      rcases h with h | h
      · exact absurd h hk
      · have h2 : dictGet ((k', v') :: tl) k = dictGet tl k := by
          simp [dictGet, dictFind_cons, hk]
        rw [dictFind_cons, if_neg hk, h2]
        exact ih h

theorem dictGet_eq_of_mem_of_nodup (d : List (Node × ℚ)) (kv : Node × ℚ)
    (hnd : (d.map Prod.fst).Nodup) (hmem : kv ∈ d) :
    dictGet d kv.1 = kv.2 := by
  induction d with
  | nil => simp at hmem
  | cons hd tl ih =>
    obtain ⟨k', v'⟩ := hd
    simp only [List.map_cons, List.nodup_cons] at hnd
    rcases List.mem_cons.mp hmem with h | h
    · subst h; simp [dictGet, dictFind]
    · have hk : kv.1 ≠ k' := by
        intro he
        exact hnd.1 (he ▸ List.mem_map_of_mem Prod.fst h)
      simp only [dictGet, dictFind_cons, if_neg hk]
      exact ih hnd.2 h

/-- Membership in the keys of a fold that assigns one constant value per
visited node, as the first loop of transition_model does. -/
theorem mem_keys_foldl_dictSet_const (c : ℚ) (l : List Node) :
    ∀ (acc : List (Node × ℚ)) (q : Node),
      q ∈ (l.foldl (fun d p => dictSet d p c) acc).map Prod.fst
        ↔ q ∈ acc.map Prod.fst ∨ q ∈ l := by
  induction l with
  | nil => simp
  | cons hd tl ih =>
    intro acc q
    rw [List.foldl_cons, ih, mem_keys_dictSet]
    simp only [List.mem_cons]
    tauto

theorem dictFind_isSome_of_mem {β : Type} (d : List (Node × β)) (k : Node)
    (h : k ∈ d.map Prod.fst) : ∃ v, dictFind d k = some v := by
  induction d with
  | nil => simp at h
  | cons hd tl ih =>
    obtain ⟨k', v'⟩ := hd
    by_cases hk : k = k'
    · exact ⟨v', by simp [dictFind_cons, hk]⟩
    · simp only [List.map_cons, List.mem_cons] at h
      rcases h with h | h
      · exact absurd h hk
      · obtain ⟨v, hv⟩ := ih h
        exact ⟨v, by simp [dictFind_cons, hk, hv]⟩

/-- Claim C2: the claim says a dangling node gets the uniform distribution
1/|V| on every node. On corpus0 the dangling node B would then get 1/2 on
each of the two nodes; the code instead assigns (1 - df)/|V| = 1/4 to every
node, because the dangling test `links == {}` never fires. -/
theorem transition_model_dangling_eval :
    transition_model corpus0 "B" (1/2) = [("A", 1/4), ("B", 1/4)]
      ∧ ((1 : ℚ)/4 ≠ 1/2) := by
  constructor
  · norm_num [transition_model, corpus0, dictGet, dictSet_nil, dictSet_cons,
      dictFind_nil, dictFind_cons,
      show ("B" : Node) ≠ "A" from by decide, show ("A" : Node) ≠ "B" from by decide]
  · norm_num

/-- Claim C3: the claim says the returned distribution always sums to 1
within 1e-9. For the dangling node B of corpus0 with damping 1/2 the values
returned by the code sum to 1 - df = 1/2, not 1. -/
theorem transition_model_dangling_sum_eval :
    ((transition_model corpus0 "B" (1/2)).map Prod.snd).sum = 1/2
      ∧ ((1 : ℚ)/2 ≠ 1) := by
  constructor
  · norm_num [transition_model, corpus0, dictGet, dictSet_nil, dictSet_cons,
      dictFind_nil, dictFind_cons,
      show ("B" : Node) ≠ "A" from by decide, show ("A" : Node) ≠ "B" from by decide]
  · norm_num

/-- The first loop of transitionModelE never faults once the link list is
known to be non-empty, and agrees with the pure first loop. -/
theorem foldlM_links_ok (links : List Node) (df : ℚ) (h : links.length ≠ 0) :
    ∀ (l : List Node) (acc : List (Node × ℚ)),
      (l.foldlM (fun dist p =>
          if links.length = 0 then Except.error PyErr.zeroDivisionError
          else Except.ok (dictSet dist p (df / (links.length : ℚ)))) acc)
        = Except.ok (l.foldl (fun dist p => dictSet dist p (df / (links.length : ℚ))) acc) := by
  intro l
  induction l with
  | nil => intro acc; rfl
  | cons hd tl ih =>
    intro acc
    rw [List.foldlM_cons, List.foldl_cons, if_neg h]
    exact ih (dictSet acc hd (df / (links.length : ℚ)))

/-- The second loop of transitionModelE never faults when the corpus is
non-empty and every link key is already present in the accumulated
distribution, and agrees with the pure second loop. -/
theorem foldlM_corpus_ok (corpus : Corpus) (links : List Node) (df : ℚ)
    (hN : corpus.length ≠ 0) :
    ∀ (l : Corpus) (acc : List (Node × ℚ)),
      (∀ q ∈ links, q ∈ acc.map Prod.fst) →
      (l.foldlM (fun dist pr =>
          if corpus.length = 0 then Except.error PyErr.zeroDivisionError
          else if pr.1 ∈ links then
            match dictFind dist pr.1 with
            | some v => Except.ok (dictSet dist pr.1 (v + (1 - df) / (corpus.length : ℚ)))
            | none => Except.error PyErr.keyError
          else Except.ok (dictSet dist pr.1 ((1 - df) / (corpus.length : ℚ)))) acc)
        = Except.ok (l.foldl (fun dist pr =>
            if pr.1 ∈ links then
              dictSet dist pr.1 (dictGet dist pr.1 + (1 - df) / (corpus.length : ℚ))
            else
              dictSet dist pr.1 ((1 - df) / (corpus.length : ℚ))) acc) := by
  intro l
  induction l with
  | nil => intro acc _; rfl
  | cons hd tl ih =>
    intro acc hinv
    rw [List.foldlM_cons, List.foldl_cons, if_neg hN]
    by_cases hmem : hd.1 ∈ links
    · rw [if_pos hmem, if_pos hmem, dictFind_eq_some_of_mem acc hd.1 (hinv hd.1 hmem)]
      exact ih (dictSet acc hd.1 (dictGet acc hd.1 + (1 - df) / (corpus.length : ℚ)))
        (fun q hq => (mem_keys_dictSet _ _ _ q).mpr (Or.inl (hinv q hq)))
    · rw [if_neg hmem, if_neg hmem]
      exact ih (dictSet acc hd.1 ((1 - df) / (corpus.length : ℚ)))
        (fun q hq => (mem_keys_dictSet _ _ _ q).mpr (Or.inl (hinv q hq)))

/-- Claim C9: for every page that is a key of the corpus, transition_model
runs to completion with no Python exception: every fault site of
transitionModelE is avoided and the result equals the pure function. -/
theorem transitionModelE_ok (corpus : Corpus) (page : Node) (df : ℚ)
    (h : page ∈ corpus.map Prod.fst) :
    transitionModelE corpus page df = Except.ok (transition_model corpus page df) := by
  obtain ⟨links, hlinks⟩ := dictFind_isSome_of_mem corpus page h
  have hcorpus : corpus ≠ [] := by rintro rfl; simp at h
  have hN : corpus.length ≠ 0 := fun h0 => hcorpus (List.length_eq_zero.mp h0)
  have hfirst : (links.foldlM (fun dist p =>
      if links.length = 0 then Except.error PyErr.zeroDivisionError
      else Except.ok (dictSet dist p (df / (links.length : ℚ))))
      ([] : List (Node × ℚ)))
      = Except.ok (links.foldl (fun dist p => dictSet dist p (df / (links.length : ℚ))) []) := by
    by_cases hl : links = []
    · subst hl; rfl
    · exact foldlM_links_ok links df (fun h0 => hl (List.length_eq_zero.mp h0)) links []
  have hinv : ∀ q ∈ links,
      q ∈ ((links.foldl (fun dist p => dictSet dist p (df / (links.length : ℚ))) []).map Prod.fst) := by
    intro q hq
    rw [mem_keys_foldl_dictSet_const]
    exact Or.inr hq
  have hsecond := foldlM_corpus_ok corpus links df hN corpus _ hinv
  unfold transitionModelE transition_model
  rw [hlinks]
  simp only [Option.getD_some]
  rw [hfirst]
  exact hsecond

theorem sampleVisits_nil (corpus : Corpus) (df : ℚ) (stream : ℕ → ℕ) (page : Node) :
    sampleVisits corpus df stream page [] = [] := rfl

theorem sampleVisits_cons (corpus : Corpus) (df : ℚ) (stream : ℕ → ℕ) (page : Node)
    (i : ℕ) (is : List ℕ) :
    sampleVisits corpus df stream page (i :: is)
      = nextPage corpus df stream page i
        :: sampleVisits corpus df stream (nextPage corpus df stream page i) is := rfl

/-- The keys of the tally built by the sampling loop are exactly the keys
already present plus the pages visited along the loop. -/
theorem mem_keys_sample_foldl (corpus : Corpus) (df : ℚ) (stream : ℕ → ℕ) :
    ∀ (l : List ℕ) (page : Node) (t : List (Node × ℚ)) (p : Node),
      p ∈ ((l.foldl (sampleStep corpus df stream) (page, t)).2).map Prod.fst
        ↔ p ∈ t.map Prod.fst ∨ p ∈ sampleVisits corpus df stream page l := by
  intro l
  induction l with
  | nil =>
    intro page t p
    simp [sampleVisits_nil]
  | cons i is ih =>
    intro page t p
    rw [List.foldl_cons]
    show p ∈ ((is.foldl (sampleStep corpus df stream)
        (nextPage corpus df stream page i,
         dictSet t (nextPage corpus df stream page i)
           (dictGet t (nextPage corpus df stream page i) + 1))).2).map Prod.fst ↔ _
    rw [ih, mem_keys_dictSet, sampleVisits_cons]
    simp only [List.mem_cons]
    tauto

/-- Claim C10: the mapping returned by sample_pagerank has a key exactly
for the pages recorded as visits during the walk; a node of the graph that
is never visited is absent from the result rather than present with
probability 0. -/
theorem sample_pagerank_keys_iff_visits (corpus : Corpus) (df : ℚ) (n : ℕ)
    (stream : ℕ → ℕ) (p : Node) (_hne : corpus ≠ []) :
    p ∈ (sample_pagerank corpus df n stream).map Prod.fst
      ↔ p ∈ sampleVisits corpus df stream (sampleStart corpus stream)
          (List.range (n - 1)) := by
  have hkeys : (sample_pagerank corpus df n stream).map Prod.fst
      = (((List.range (n - 1)).foldl (sampleStep corpus df stream)
          (sampleStart corpus stream, ([] : List (Node × ℚ)))).2).map Prod.fst := by
    unfold sample_pagerank
    rw [List.map_map]
    rfl
  rw [hkeys, mem_keys_sample_foldl]
  simp

/-- Witness for claim C10 at a concrete input: on corpus2 with two draws
indexed by zeroStream, B is both a key of the result and a recorded
visit. -/
theorem sample_pagerank_keys_iff_visits_witness :
    "B" ∈ (sample_pagerank corpus2 (1/2) 2 zeroStream).map Prod.fst
      ↔ "B" ∈ sampleVisits corpus2 (1/2) zeroStream (sampleStart corpus2 zeroStream)
          (List.range (2 - 1)) :=
  sample_pagerank_keys_iff_visits corpus2 (1/2) 2 zeroStream "B" (by decide)

/-- Witness for claim C9 at a concrete input: transitionModelE succeeds on
page A of corpus2. -/
theorem transitionModelE_ok_witness :
    transitionModelE corpus2 "A" (1/2) = Except.ok (transition_model corpus2 "A" (1/2)) :=
  transitionModelE_ok corpus2 "A" (1/2) (by decide)

/-- Claim C7: the claim says sampleCount = 1 yields probability 1.0 on the
randomly chosen start node. The loop runs range(n - 1) = range(0) times,
so nothing is ever recorded and the code returns the empty mapping: the
start node A receives no entry at all. -/
theorem sample_pagerank_one_sample_eval :
    sample_pagerank corpus2 (1/2) 1 zeroStream = []
      ∧ sampleStart corpus2 zeroStream = "A" := by
  exact ⟨rfl, rfl⟩

/-- Claim C1: the claim says the start node is recorded as visit 1 and the
result sums to exactly 1. With corpus2, damping 1/2, sampleCount 2 and the
zero index stream, the walk starts at A (never recorded), draws B once,
and returns the single entry B with value 1/2: the values sum to
(n - 1)/n = 1/2, not 1. -/
theorem sample_pagerank_sum_deficit_eval :
    sample_pagerank corpus2 (1/2) 2 zeroStream = [("B", 1/2)]
      ∧ ((sample_pagerank corpus2 (1/2) 2 zeroStream).map Prod.snd).sum = 1/2
      ∧ ((1 : ℚ)/2 ≠ 1) := by
  have h : sample_pagerank corpus2 (1/2) 2 zeroStream = [("B", 1/2)] := by
    norm_num [sample_pagerank, sampleStep, nextPage, sampleStart, zeroStream, corpus2,
      transition_model, dictGet, dictSet_nil, dictSet_cons, dictFind_nil, dictFind_cons,
      List.range_succ,
      show ("B" : Node) ≠ "A" from by decide, show ("A" : Node) ≠ "B" from by decide]
  refine ⟨h, ?_, by norm_num⟩
  rw [h]
  norm_num

theorem iterLoop_zero (corpus : Corpus) (df : ℚ) (d : List (Node × ℚ)) :
    iterLoop corpus df 0 d = none := rfl

theorem iterLoop_succ (corpus : Corpus) (df : ℚ) (fuel : ℕ) (d : List (Node × ℚ)) :
    iterLoop corpus df (fuel + 1) d
      = if converged corpus d (sweep corpus df d) then some (sweep corpus df d)
        else iterLoop corpus df fuel (sweep corpus df d) := rfl

/-- Claim C6 counterexample: on the zero-node graph, the claim demands an
EmptyGraphError, but iterate_pagerank returns the empty mapping normally
(both loops are vacuous and no division is ever executed), and
sample_pagerank with sampleCount = 0, which the claim says must fail with
a ConfigurationError, also returns the empty mapping normally. -/
theorem empty_graph_no_error_eval :
    iterate_pagerank [] (1/2) 1 = some []
      ∧ sample_pagerank corpus2 (1/2) 0 zeroStream = [] := by
  exact ⟨rfl, rfl⟩

/-- On a non-empty corpus the fault-explicit sampling engine never
raises and agrees with the pure embedding. -/
theorem sample_pagerankE_agrees (corpus : Corpus) (df : ℚ) (n : ℕ)
    (stream : ℕ → ℕ) (h : corpus ≠ []) :
    sample_pagerankE corpus df n stream
      = Except.ok (sample_pagerank corpus df n stream) := by
  have hN : corpus.length ≠ 0 := fun h0 => h (List.length_eq_zero.mp h0)
  unfold sample_pagerankE sampleStartE sample_pagerank sampleStart
  rw [if_neg hN]

/-- Claim C6 as amended: neither engine validates its inputs and no
ConfigurationError or EmptyGraphError path exists. On any non-empty
corpus the sampling engine returns the empty mapping with no error for
sampleCount 0 or 1 and any damping factor; the iterative engine performs
no damping or tolerance check (its 0.001 threshold is hard-coded) and on
the zero-node graph returns the empty mapping normally; and on the
zero-node graph the sampling engine fails with the built-in IndexError
raised by random.choice, not with an EmptyGraphError. -/
theorem engines_no_validation :
    (∀ (corpus : Corpus) (df : ℚ) (stream : ℕ → ℕ), corpus ≠ [] →
        sample_pagerank corpus df 0 stream = []
          ∧ sample_pagerank corpus df 1 stream = [])
    ∧ (∀ (df : ℚ) (fuel : ℕ), iterate_pagerank [] df (fuel + 1) = some [])
    ∧ (∀ (df : ℚ) (n : ℕ) (stream : ℕ → ℕ),
        sample_pagerankE [] df n stream = Except.error PyErr.indexError) :=
  ⟨fun _ _ _ _ => ⟨rfl, rfl⟩, fun _ _ => rfl, fun _ _ _ => rfl⟩

/-- Witness for the amended claim C6 at concrete inputs, discharging the
non-emptiness hypothesis of the first part. -/
theorem engines_no_validation_witness :
    sample_pagerank corpus2 (1/2) 1 zeroStream = []
      ∧ iterate_pagerank [] (1/2) 1 = some []
      ∧ sample_pagerankE [] (1/2) 5 zeroStream = Except.error PyErr.indexError :=
  ⟨(engines_no_validation.1 corpus2 (1/2) zeroStream (by decide)).2,
   engines_no_validation.2.1 (1/2) 0,
   engines_no_validation.2.2 (1/2) 5 zeroStream⟩

/-- Claim C8: the iterative engine is a pure function of the corpus, the
damping factor and the loop fuel: the source consults no random source
and no state outside its arguments, so equal inputs give equal outputs. -/
theorem iterate_pagerank_deterministic (ca cb : Corpus) (da db : ℚ) (fa fb : ℕ)
    (hc : ca = cb) (hd : da = db) (hf : fa = fb) :
    iterate_pagerank ca da fa = iterate_pagerank cb db fb := by
  subst hc; subst hd; subst hf; rfl

/-- Witness for claim C8 at a concrete input. -/
theorem iterate_pagerank_deterministic_witness :
    iterate_pagerank corpus2 (1/2) 1 = iterate_pagerank corpus2 (1/2) 1 :=
  iterate_pagerank_deterministic corpus2 corpus2 (1/2) (1/2) 1 1 rfl rfl rfl

/-- Reading the result of a sweep-shaped fold: a key of the iterated list
receives the value function, any other key keeps its accumulator value.
The value function depends only on the key, never on the partially built
dict, which is what makes the sweep a pure function of the snapshot. -/
theorem dictGet_foldl_dictSet (f : Node → ℚ) (l : Corpus) :
    ∀ (acc : List (Node × ℚ)) (p : Node),
      dictGet (l.foldl (fun d pr => dictSet d pr.1 (f pr.1)) acc) p
        = if p ∈ l.map Prod.fst then f p else dictGet acc p := by
  induction l with
  | nil => intro acc p; simp
  | cons hd tl ih =>
    intro acc p
    rw [List.foldl_cons, ih]
    by_cases h1 : p ∈ tl.map Prod.fst
    · simp [h1]
    · by_cases h2 : p = hd.1 <;> simp [h1, h2, dictGet_dictSet]

theorem dictGet_sweep (corpus : Corpus) (df : ℚ) (dcopy : List (Node × ℚ)) (p : Node) :
    dictGet (sweep corpus df dcopy) p
      = if p ∈ corpus.map Prod.fst then sweepVal corpus df dcopy p else dictGet dcopy p :=
  dictGet_foldl_dictSet (sweepVal corpus df dcopy) corpus dcopy p

theorem foldl_add_shift {α : Type} (g : α → ℚ) (l : List α) :
    ∀ acc : ℚ, l.foldl (fun a x => a + g x) acc = acc + (l.map g).sum := by
  induction l with
  | nil => intro acc; simp
  | cons hd tl ih =>
    intro acc
    rw [List.foldl_cons, ih]
    simp only [List.map_cons, List.sum_cons]
    ring

theorem sum_map_add_split {α : Type} (g1 g2 : α → ℚ) (l : List α) :
    (l.map (fun x => g1 x + g2 x)).sum = (l.map g1).sum + (l.map g2).sum := by
  induction l with
  | nil => simp
  | cons hd tl ih =>
    simp only [List.map_cons, List.sum_cons, ih]
    ring

theorem sum_map_ite_zero (c : ℚ) (l : Corpus) :
    (l.map (fun pr => if pr.2.length = 0 then c else 0)).sum
      = ((l.filter (fun pr => decide (pr.2.length = 0))).length : ℚ) * c := by
  induction l with
  | nil => simp
  | cons hd tl ih =>
    rw [List.map_cons, List.sum_cons, List.filter_cons, ih]
    by_cases h : hd.2.length = 0
    · rw [if_pos h, if_pos (show decide (hd.2.length = 0) = true by simp [h]),
        List.length_cons]
      push_cast
      ring
    · rw [if_neg h, if_neg (show ¬ decide (hd.2.length = 0) = true by simp [h])]
      ring

theorem prob_for_eq (corpus : Corpus) (dcopy : List (Node × ℚ)) (page : Node) :
    prob_for corpus dcopy page
      = linkMass corpus dcopy page
        + (danglingCount corpus : ℚ) / (corpus.length : ℚ) := by
  have hstep : (fun (prob : ℚ) (pr : Node × List Node) =>
      if page ∈ pr.2 then prob + dictGet dcopy pr.1 / (pr.2.length : ℚ)
      else if pr.2.length = 0 then prob + 1 / (corpus.length : ℚ)
      else prob)
    = (fun (prob : ℚ) (pr : Node × List Node) => prob
        + ((if page ∈ pr.2 then dictGet dcopy pr.1 / (pr.2.length : ℚ) else 0)
          + (if pr.2.length = 0 then 1 / (corpus.length : ℚ) else 0))) := by
    funext prob pr
    by_cases h1 : page ∈ pr.2
    · have h2 : pr.2.length ≠ 0 := by
        intro h0
        rw [List.length_eq_zero] at h0
        rw [h0] at h1
        simp at h1
      simp [h1, h2]
    · by_cases h2 : pr.2.length = 0 <;> simp [h1, h2]
  unfold prob_for
  rw [hstep, foldl_add_shift, sum_map_add_split, sum_map_ite_zero]
  unfold linkMass danglingCount
  ring

/-- Claim C4 as amended: each sweep value is computed entirely from the
previous snapshot, and for every page p of the corpus the new value is
(1 - d)/|V| + d * (sum over nodes i linking to p of rank(i)/|successors(i)|)
+ d * (danglingCount/|V|): the dangling teleport contribution is the
constant 1/|V| per dangling node, NOT weighted by the dangling node's
current rank as the claim states. -/
theorem sweep_eq_codeSweepFormula (corpus : Corpus) (df : ℚ)
    (rank : List (Node × ℚ)) (p : Node) (h : p ∈ corpus.map Prod.fst) :
    dictGet (sweep corpus df rank) p = codeSweepFormula corpus df rank p := by
  rw [dictGet_sweep, if_pos h]
  unfold sweepVal codeSweepFormula
  rw [prob_for_eq]
  ring

/-- Witness for the amended claim C4 at a concrete input. -/
theorem sweep_eq_codeSweepFormula_witness :
    dictGet (sweep corpus0 (1/2) (initRank corpus0)) "A"
      = codeSweepFormula corpus0 (1/2) (initRank corpus0) "A" :=
  sweep_eq_codeSweepFormula corpus0 (1/2) (initRank corpus0) "A" (by decide)

/-- Claim C4 counterexample: on corpus0 (A links to B, B dangling) with
damping 1/2, starting from the uniform vector, the formula claimed by the
spec gives 3/8 for page A, but the code computes 1/2, because the code
adds the constant 1/2 * 1/2 for the dangling node B instead of the
rank-weighted 1/2 * (1/2)/2. -/
theorem sweep_spec_formula_counterexample :
    dictGet (sweep corpus0 (1/2) (initRank corpus0)) "A" = 1/2
      ∧ specSweepFormula corpus0 (1/2) (initRank corpus0) "A" = 3/8
      ∧ ((1 : ℚ)/2 ≠ 3/8) := by
  refine ⟨?_, ?_, by norm_num⟩
  · norm_num [sweep, sweepVal, prob_for, initRank, corpus0, dictGet,
      dictSet_nil, dictSet_cons, dictFind_nil, dictFind_cons,
      show ("B" : Node) ≠ "A" from by decide, show ("A" : Node) ≠ "B" from by decide]
  · norm_num [specSweepFormula, linkMass, initRank, corpus0, dictGet,
      dictFind_nil, dictFind_cons,
      show ("B" : Node) ≠ "A" from by decide, show ("A" : Node) ≠ "B" from by decide]

theorem dictGet_map_const (c : ℚ) (l : Corpus) (p : Node) :
    dictGet (l.map (fun pr => (pr.1, c))) p = if p ∈ l.map Prod.fst then c else 0 := by
  induction l with
  | nil => simp [dictGet, dictFind_nil]
  | cons hd tl ih =>
    by_cases h : p = hd.1
    · simp [dictGet, dictFind_cons, h]
    · rw [List.map_cons, List.map_cons]
      simp only [dictGet, dictFind_cons, if_neg h] at ih ⊢
      simp only [List.mem_cons, h, false_or]
      exact ih

theorem dictGet_initRank (corpus : Corpus) (p : Node) :
    dictGet (initRank corpus) p
      = if p ∈ corpus.map Prod.fst then 1 / (corpus.length : ℚ) else 0 :=
  dictGet_map_const (1 / (corpus.length : ℚ)) corpus p

theorem dictGet_initRank_nonneg (corpus : Corpus) (p : Node) :
    0 ≤ dictGet (initRank corpus) p := by
  rw [dictGet_initRank]
  by_cases h : p ∈ corpus.map Prod.fst
  · rw [if_pos h]
    positivity
  · rw [if_neg h]

theorem keys_initRank (corpus : Corpus) :
    (initRank corpus).map Prod.fst = corpus.map Prod.fst := by
  unfold initRank
  rw [List.map_map]
  rfl

theorem prob_for_nonneg (corpus : Corpus) (dcopy : List (Node × ℚ)) (page : Node)
    (hv : ∀ q, 0 ≤ dictGet dcopy q) : 0 ≤ prob_for corpus dcopy page := by
  rw [prob_for_eq]
  have h1 : 0 ≤ linkMass corpus dcopy page := by
    apply List.sum_nonneg
    intro x hx
    obtain ⟨pr, _, rfl⟩ := List.mem_map.mp hx
    by_cases h : page ∈ pr.2
    · rw [if_pos h]
      exact div_nonneg (hv pr.1) (by positivity)
    · rw [if_neg h]
  have h2 : 0 ≤ (danglingCount corpus : ℚ) / (corpus.length : ℚ) := by positivity
  linarith

theorem sweepVal_lb (corpus : Corpus) (df : ℚ) (dcopy : List (Node × ℚ)) (page : Node)
    (hdf0 : 0 ≤ df) (hv : ∀ q, 0 ≤ dictGet dcopy q) :
    (1 - df) / (corpus.length : ℚ) ≤ sweepVal corpus df dcopy page := by
  unfold sweepVal
  have h := mul_nonneg hdf0 (prob_for_nonneg corpus dcopy page hv)
  linarith

theorem dictGet_sweep_nonneg (corpus : Corpus) (df : ℚ) (dcopy : List (Node × ℚ))
    (hdf0 : 0 ≤ df) (hdf1 : df ≤ 1) (hv : ∀ q, 0 ≤ dictGet dcopy q) :
    ∀ p, 0 ≤ dictGet (sweep corpus df dcopy) p := by
  intro p
  rw [dictGet_sweep]
  by_cases h : p ∈ corpus.map Prod.fst
  · rw [if_pos h]
    refine le_trans ?_ (sweepVal_lb corpus df dcopy p hdf0 hv)
    have : (0 : ℚ) ≤ 1 - df := by linarith
    positivity
  · rw [if_neg h]
    exact hv p

theorem keys_foldl_dictSet (f : Node → ℚ) (l : Corpus) :
    ∀ (acc : List (Node × ℚ)), (∀ pr ∈ l, pr.1 ∈ acc.map Prod.fst) →
      (l.foldl (fun d pr => dictSet d pr.1 (f pr.1)) acc).map Prod.fst
        = acc.map Prod.fst := by
  induction l with
  | nil => intro acc _; rfl
  | cons hd tl ih =>
    intro acc hmem
    rw [List.foldl_cons]
    have hhd : hd.1 ∈ acc.map Prod.fst := hmem hd (List.mem_cons_self hd tl)
    have hkeys := keys_dictSet_of_mem acc hd.1 (f hd.1) hhd
    rw [ih (dictSet acc hd.1 (f hd.1))
      (fun pr hpr => by rw [hkeys]; exact hmem pr (List.mem_cons_of_mem hd hpr)), hkeys]

theorem keys_sweep (corpus : Corpus) (df : ℚ) (dcopy : List (Node × ℚ))
    (h : ∀ pr ∈ corpus, pr.1 ∈ dcopy.map Prod.fst) :
    (sweep corpus df dcopy).map Prod.fst = dcopy.map Prod.fst :=
  keys_foldl_dictSet (sweepVal corpus df dcopy) corpus dcopy h

/-- Any vector that the while loop hands back is the sweep of a
nonnegative vector whose keys are the corpus keys. -/
theorem iterLoop_some_eq_sweep (corpus : Corpus) (df : ℚ)
    (hdf0 : 0 ≤ df) (hdf1 : df ≤ 1) :
    ∀ (fuel : ℕ) (d res : List (Node × ℚ)),
      d.map Prod.fst = corpus.map Prod.fst → (∀ q, 0 ≤ dictGet d q) →
      iterLoop corpus df fuel d = some res →
      ∃ dp, (∀ q, 0 ≤ dictGet dp q) ∧ dp.map Prod.fst = corpus.map Prod.fst
        ∧ res = sweep corpus df dp := by
  intro fuel
  induction fuel with
  | zero => intro d res _ _ h; rw [iterLoop_zero] at h; exact absurd h (by simp)
  | succ fuel ih =>
    intro d res hkeys hv h
    rw [iterLoop_succ] at h
    by_cases hc : converged corpus d (sweep corpus df d)
    · rw [if_pos hc] at h
      exact ⟨d, hv, hkeys, (Option.some_inj.mp h).symm⟩
    · rw [if_neg hc] at h
      have hsub : ∀ pr ∈ corpus, pr.1 ∈ d.map Prod.fst := by
        intro pr hpr
        rw [hkeys]
        exact List.mem_map_of_mem Prod.fst hpr
      exact ih (sweep corpus df d) res
        (by rw [keys_sweep corpus df d hsub, hkeys])
        (dictGet_sweep_nonneg corpus df d hdf0 hdf1 hv) h

theorem sum_map_div (l : List (Node × ℚ)) (s : ℚ) :
    (l.map (fun kv => kv.2 / s)).sum = (l.map Prod.snd).sum / s := by
  induction l with
  | nil => simp
  | cons hd tl ih =>
    simp only [List.map_cons, List.sum_cons, ih]
    ring

/-- Claim C5: whenever the while loop of the iterative engine exits (the
fuel covers the number of Python loop iterations), the returned
distribution, after the final division of every value by the sum of all
values, sums to exactly 1 and every value lies in [0, 1]. -/
theorem iterate_pagerank_normalized_sound (corpus : Corpus) (df : ℚ) (fuel : ℕ)
    (res : List (Node × ℚ)) (hne : corpus ≠ []) (h0 : 0 < df) (h1 : df < 1)
    (hnd : (corpus.map Prod.fst).Nodup)
    (hrun : iterate_pagerank corpus df fuel = some res) :
    (res.map Prod.snd).sum = 1
      ∧ res.all (fun kv => decide (0 ≤ kv.2 ∧ kv.2 ≤ 1)) = true := by
  unfold iterate_pagerank at hrun
  cases hloop : iterLoop corpus df fuel (initRank corpus) with
  | none => rw [hloop] at hrun; exact absurd hrun (by simp)
  | some r =>
    rw [hloop] at hrun
    simp only [Option.map_some'] at hrun
    have hres : res = r.map (fun kv => (kv.1, kv.2 / ((r.map Prod.snd).sum))) :=
      (Option.some_inj.mp hrun).symm
    obtain ⟨dp, hdp, hdpkeys, hreq⟩ := iterLoop_some_eq_sweep corpus df
      (le_of_lt h0) (le_of_lt h1) fuel (initRank corpus) r
      (keys_initRank corpus) (dictGet_initRank_nonneg corpus) hloop
    have hkeysr : r.map Prod.fst = corpus.map Prod.fst := by
      rw [hreq, keys_sweep corpus df dp
        (fun pr hpr => by rw [hdpkeys]; exact List.mem_map_of_mem Prod.fst hpr), hdpkeys]
    have hNpos : (0 : ℚ) < (corpus.length : ℚ) := by
      have h := List.length_pos.mpr hne
      exact_mod_cast h
    have hlbpos : 0 < (1 - df) / (corpus.length : ℚ) := div_pos (by linarith) hNpos
    have hndr : (r.map Prod.fst).Nodup := by rw [hkeysr]; exact hnd
    have hval : ∀ kv ∈ r, (1 - df) / (corpus.length : ℚ) ≤ kv.2 := by
      intro kv hkv
      have hmemk : kv.1 ∈ corpus.map Prod.fst := by
        rw [← hkeysr]
        exact List.mem_map_of_mem Prod.fst hkv
      have hget := dictGet_eq_of_mem_of_nodup r kv hndr hkv
      rw [← hget, hreq, dictGet_sweep, if_pos hmemk]
      exact sweepVal_lb corpus df dp kv.1 (le_of_lt h0) hdp
    have hrne : r ≠ [] := by
      intro hr
      have hmapnil : corpus.map Prod.fst = [] := by rw [← hkeysr, hr]; rfl
      exact hne (List.map_eq_nil_iff.mp hmapnil)
    have hpos : ∀ x ∈ r.map Prod.snd, 0 < x := by
      intro x hx
      obtain ⟨kv, hkv, rfl⟩ := List.mem_map.mp hx
      exact lt_of_lt_of_le hlbpos (hval kv hkv)
    have hsnd_ne : r.map Prod.snd ≠ [] := by
      intro hx
      exact hrne (List.map_eq_nil_iff.mp hx)
    have hs : 0 < (r.map Prod.snd).sum := List.sum_pos (r.map Prod.snd) hpos hsnd_ne
    constructor
    · rw [hres, List.map_map]
      have hcomp : (Prod.snd ∘ fun kv : Node × ℚ => (kv.1, kv.2 / ((r.map Prod.snd).sum)))
          = fun kv : Node × ℚ => kv.2 / ((r.map Prod.snd).sum) := rfl
      rw [hcomp, sum_map_div]
      exact div_self (ne_of_gt hs)
    · rw [List.all_eq_true]
      intro kv hkv
      rw [hres] at hkv
      obtain ⟨kv0, hkv0, rfl⟩ := List.mem_map.mp hkv
      simp only [decide_eq_true_eq]
      constructor
      · exact div_nonneg (le_of_lt (lt_of_lt_of_le hlbpos (hval kv0 hkv0))) (le_of_lt hs)
      · rw [div_le_one hs]
        exact List.single_le_sum (fun x hx => le_of_lt (hpos x hx)) _
          (List.mem_map_of_mem Prod.snd hkv0)

/-- Witness for claim C5 at a concrete input: on corpus2 with damping 1/2
the loop converges in one sweep to the uniform vector, which normalizes
to itself. -/
theorem iterate_pagerank_normalized_sound_witness :
    (([(("A" : Node), (1 : ℚ)/2), ("B", 1/2)]).map Prod.snd).sum = 1
      ∧ ([(("A" : Node), (1 : ℚ)/2), ("B", 1/2)]).all
          (fun kv => decide (0 ≤ kv.2 ∧ kv.2 ≤ 1)) = true :=
  iterate_pagerank_normalized_sound corpus2 (1/2) 1 [("A", 1/2), ("B", 1/2)]
    (by decide) (by norm_num) (by norm_num) (by decide)
    (by
      norm_num [iterate_pagerank, iterLoop, initRank, sweep, sweepVal, prob_for,
        converged, corpus2, dictGet, dictSet_nil, dictSet_cons, dictFind_nil,
        dictFind_cons,
        show ("B" : Node) ≠ "A" from by decide, show ("A" : Node) ≠ "B" from by decide])

